import Mathlib

/-! # A shallow embedding of the NMDP SQLite3 demo (akkornel/nmdp_sqlite3)

This file embeds, in Lean 4, the parts of the repository that the claims
under scrutiny are about:

* `src/nmdp/nmdp.py` — the two dictionary-like mappings (`NMDPCodes`,
  `NMDPFiles`) layered over the `Codes` and `Files` tables, and the
  `NMDPConnection` session object with its `commit`, `rollback` and
  `__del__` (teardown) behaviour;
* `src/nmdp/db.py` — `setup_db` and `open_db` with the schema constants;
* `src/demo.py` — the reconciliation loop of the `__main__` block
  (up-to-date check, files write, added/changed classification, removal
  pass, single commit).

Conventions of the embedding:

* A SQL table with a TEXT primary key is an association list
  `List (String × α)`; `tabGet` models `SELECT ... WHERE key = ?` with
  `fetchone` (first matching row), `tabUpsert` models
  `INSERT ... ON CONFLICT DO UPDATE` (update the existing row in place,
  else append a new row), `tabDelete` models `DELETE ... WHERE key = ?`
  (removes every matching row).
* Bytes (`BLOB` values) are `List Nat`.
* `zlib.compress` / `zlib.decompress` are an external C library; they are
  modelled by an executable run-length coder (`rleCompress` /
  `rleDecompress`) that is faithful to the documented contract the code
  relies on: a deterministic, exactly reversible compression of a byte
  string, whose decompressor rejects malformed input (`zlib.error`,
  the spec's CorruptPayload).
* Python's `str.encode('ASCII')` / `bytes.decode('ASCII')` are modelled
  by `asciiEncode` / `asciiDecode`: they succeed exactly on code points
  below 128 and fail otherwise (UnicodeEncodeError / UnicodeDecodeError).
* `datetime.datetime` values are naive six-field timestamps
  (`PyDatetime`); `isoformat` / `fromisoformat` round-trip such values
  exactly, so the `modified` column stores the value structurally.
* Fallible Python code (raised exceptions) becomes `Except Fault`.
-/

/-- A naive `datetime.datetime` as built in `demo.py` from the zip
member's `date_time` tuple (year, month, day, hour, minute, second);
no timezone, microseconds always zero. -/
structure PyDatetime where
  year : Nat
  month : Nat
  day : Nat
  hour : Nat
  minute : Nat
  second : Nat
deriving DecidableEq, Repr

/-- `NMDPCode` from `src/nmdp/nmdp.py`: a frozen dataclass holding one
subtype string.  Equality of two `NMDPCode`s is equality of their
subtype fields (dataclass `__eq__`). -/
structure NMDPCode where
  subtype : String
deriving DecidableEq, Repr

/-- `NMDPFile` from `src/nmdp/nmdp.py`: a frozen dataclass holding a
last-modified naive datetime and the first (comment) line of the file. -/
structure NMDPFile where
  modified : PyDatetime
  comment : String
deriving DecidableEq, Repr

/-- The faults that can surface from the embedded code paths:
`storageFault` models a SQLite storage-engine failure (injected via a
fault schedule), `keyError` models Python's `KeyError`, `corruptPayload`
models `zlib.error` on decompression, `unicodeDecode` and
`unicodeEncode` model `bytes.decode('ASCII')` / `str.encode('ASCII')`
failures. -/
inductive Fault where
  | storageFault
  | keyError
  | corruptPayload
  | unicodeDecode
  | unicodeEncode
deriving DecidableEq, Repr

/-- `SELECT ... WHERE key = ?` followed by `fetchone`: the first row of
the table whose key matches, if any. -/
def tabGet {α : Type} : List (String × α) → String → Option α
  | [], _ => none
  | (k, v) :: rest, key => if k = key then some v else tabGet rest key

/-- `INSERT ... ON CONFLICT (key) DO UPDATE`: overwrite the value of the
first row with this key, or append a fresh row when no row matches. -/
def tabUpsert {α : Type} : List (String × α) → String → α → List (String × α)
  | [], key, v => [(key, v)]
  | (k, w) :: rest, key, v =>
      if k = key then (k, v) :: rest else (k, w) :: tabUpsert rest key v

/-- `DELETE FROM ... WHERE key = ?`: remove every row with this key. -/
def tabDelete {α : Type} : List (String × α) → String → List (String × α)
  | [], _ => []
  | (k, w) :: rest, key =>
      if k = key then tabDelete rest key else (k, w) :: tabDelete rest key

/-- `SELECT (key) FROM ...`: the list of keys, in table order. -/
def tabKeys {α : Type} (t : List (String × α)) : List String :=
  t.map Prod.fst

/-- Python `set(...)` built from an iterable: membership-relevant part,
keeping one copy of every key. -/
def dedupKeys : List String → List String
  | [] => []
  | k :: rest => if k ∈ rest then dedupKeys rest else k :: dedupKeys rest

/-- Python `set.add`: insert a key if it is not already present. -/
def setInsert (l : List String) (k : String) : List String :=
  if k ∈ l then l else l ++ [k]

/-- The run-length model of `zlib.compress`'s body: `rleCompressAux n b l`
emits the encoding of a pending run of `n` copies of byte `b` followed by
the remaining input `l`. -/
def rleCompressAux : Nat → Nat → List Nat → List Nat
  | count, b, [] => [count, b]
  | count, b, c :: rest =>
      if c = b then rleCompressAux (count + 1) b rest
      else count :: b :: rleCompressAux 1 c rest

/-- Model of `zlib.compress`: deterministic, exactly reversible
compression of a byte string (run-length coding: each maximal run of a
byte becomes a (count, byte) pair). -/
def rleCompress : List Nat → List Nat
  | [] => []
  | b :: rest => rleCompressAux 1 b rest

/-- Model of `zlib.decompress`: inverts `rleCompress`; returns `none`
(a `zlib.error`, the spec's CorruptPayload) on input that is not a
well-formed stream of (positive count, byte) pairs. -/
def rleDecompress : List Nat → Option (List Nat)
  | [] => some []
  | [_] => none
  | count :: b :: rest =>
      if count = 0 then none
      else (rleDecompress rest).map (fun tail => List.replicate count b ++ tail)

/-- Is every character of the string a 7-bit ASCII code point?  This is
exactly the success condition of Python's `str.encode('ASCII')`. -/
def allAscii (s : String) : Bool :=
  s.data.all (fun c => decide (c.toNat < 128))

/-- Model of `str.encode('ASCII')`: the code points of the string as
bytes, failing (UnicodeEncodeError) when any code point is 128 or more. -/
def asciiEncode (s : String) : Option (List Nat) :=
  if allAscii s then some (s.data.map Char.toNat) else none

/-- Model of `bytes.decode('ASCII')`: the bytes as characters, failing
(UnicodeDecodeError) when any byte is 128 or more. -/
def asciiDecode (l : List Nat) : Option String :=
  if l.all (fun b => decide (b < 128)) then some ⟨l.map Char.ofNat⟩ else none

/-- The content of the two tables of one NMDP SQLite3 database: `Files`
(path → modified, comment) and `Codes` (code → subtype_compressed). -/
structure DB where
  files : List (String × NMDPFile)
  codes : List (String × List Nat)
deriving DecidableEq, Repr

/-- The state of one open connection with `autocommit=False`:
`committed` is the durable content visible after the session ends,
`pending` is the content seen through the open transaction, and
`needOptimize` is `NMDPConnection.need_optimize` (set by `commit`). -/
structure DBState where
  committed : DB
  pending : DB
  needOptimize : Bool
deriving DecidableEq, Repr

/-- `zlib.compress(value.subtype.encode('ASCII'))` from
`NMDPCodes.__setitem__`: ASCII-encode (may raise UnicodeEncodeError,
before any SQL executes) then compress. -/
def encodeSubtype (s : String) : Except Fault (List Nat) :=
  match asciiEncode s with
  | none => .error .unicodeEncode
  | some bs => .ok (rleCompress bs)

/-- `zlib.decompress(raw_val[0]).decode('ASCII')` from
`NMDPCodes.__getitem__`: decompress (may raise `zlib.error`) then
ASCII-decode (may raise UnicodeDecodeError). -/
def decodeSubtype (payload : List Nat) : Except Fault String :=
  match rleDecompress payload with
  | none => .error .corruptPayload
  | some bs =>
      match asciiDecode bs with
      | none => .error .unicodeDecode
      | some s => .ok s

/-- `NMDPCodes.__getitem__`: select the compressed payload for the code
(`KeyError` when no row exists), then decompress and ASCII-decode it. -/
def NMDPCodes.getItem (db : DB) (key : String) : Except Fault NMDPCode :=
  match tabGet db.codes key with
  | none => .error .keyError
  | some payload =>
      match decodeSubtype payload with
      | .error e => .error e
      | .ok s => .ok ⟨s⟩

/-- `NMDPCodes.__setitem__`: compress the ASCII encoding of the subtype
(failures happen before the SQL executes), then upsert the row. -/
def NMDPCodes.setItem (db : DB) (key : String) (value : NMDPCode) :
    Except Fault DB :=
  match encodeSubtype value.subtype with
  | .error e => .error e
  | .ok payload => .ok { db with codes := tabUpsert db.codes key payload }

/-- The `__contains__` that `NMDPCodes` inherits from
`collections.abc.MutableMapping`: call `__getitem__`, return `False` on
`KeyError`, `True` on success; every other exception propagates. -/
def NMDPCodes.containsKey (db : DB) (key : String) : Except Fault Bool :=
  match NMDPCodes.getItem db key with
  | .ok _ => .ok true
  | .error .keyError => .ok false
  | .error e => .error e

/-- `NMDPCodes.__delitem__`: `if key not in self: raise KeyError(key)`
(the membership test itself decodes the stored value), then delete the
row. -/
def NMDPCodes.delItem (db : DB) (key : String) : Except Fault DB :=
  match NMDPCodes.containsKey db key with
  | .error e => .error e
  | .ok false => .error .keyError
  | .ok true => .ok { db with codes := tabDelete db.codes key }

/-- `NMDPFiles.__getitem__`: select `(modified, comment)` for the path
(`KeyError` when no row exists).  The `modified` column stores
`datetime.isoformat()` text and is read back with
`datetime.fromisoformat`, whose composition is the identity for naive
datetimes, so the model stores the `PyDatetime` value structurally. -/
def NMDPFiles.getItem (db : DB) (key : String) : Except Fault NMDPFile :=
  match tabGet db.files key with
  | none => .error .keyError
  | some v => .ok v

/-- `NMDPFiles.__setitem__`: upsert the `(modified, comment)` row for
the path. -/
def NMDPFiles.setItem (db : DB) (key : String) (value : NMDPFile) : DB :=
  { db with files := tabUpsert db.files key value }

/-- `NMDPConnection.commit`: `self.db.commit()` makes the pending
content durable, then `need_optimize` is set. -/
def NMDPConnection.commit (s : DBState) : DBState :=
  { s with committed := s.pending, needOptimize := true }

/-- `NMDPConnection.rollback`: discard the pending writes. -/
def NMDPConnection.rollback (s : DBState) : DBState :=
  { s with pending := s.committed }

/-- `NMDPConnection.__del__`: roll back, then — only if `need_optimize`
is set — run `PRAGMA OPTIMIZE` (no table content change) and commit it,
then close.  The resulting state is what the store holds after the
session ends. -/
def NMDPConnection.delConn (s : DBState) : DBState :=
  let s1 := NMDPConnection.rollback s
  if s1.needOptimize then { s1 with committed := s1.pending } else s1

/-- The steps `NMDPConnection.__del__` performs, in order, as observable
actions on the storage engine. -/
inductive TeardownAction where
  | rollbackAct
  | optimizeAct
  | commitAct
  | closeAct
deriving DecidableEq, Repr

/-- The action trace of `NMDPConnection.__del__`: rollback first, then
the optimize-and-commit pair only when `need_optimize` is set, then
close. -/
def NMDPConnection.delTrace (s : DBState) : List TeardownAction :=
  [.rollbackAct]
    ++ (if s.needOptimize then [.optimizeAct, .commitAct] else [])
    ++ [.closeAct]

/-- The calls a client can make on a live `NMDPConnection` during its
lifetime, as far as `need_optimize` and the two-level store state are
concerned. -/
inductive SessionOp where
  | commitOp
  | rollbackOp
  | setFileOp (k : String) (v : NMDPFile)
  | setCodeOp (k : String) (v : NMDPCode)
  | delCodeOp (k : String)
deriving DecidableEq, Repr

/-- Apply one session call to the connection state.  Mapping writes act
on the pending content only and never touch `need_optimize`; a mapping
call that raises leaves the state as it was. -/
def applySessionOp (s : DBState) : SessionOp → DBState
  | .commitOp => NMDPConnection.commit s
  | .rollbackOp => NMDPConnection.rollback s
  | .setFileOp k v => { s with pending := NMDPFiles.setItem s.pending k v }
  | .setCodeOp k v =>
      match NMDPCodes.setItem s.pending k v with
      | .ok db => { s with pending := db }
      | .error _ => s
  | .delCodeOp k =>
      match NMDPCodes.delItem s.pending k with
      | .ok db => { s with pending := db }
      | .error _ => s

/-- A whole session lifetime: the calls made between `open_db` and the
teardown, applied in order. -/
def runSession (s : DBState) (ops : List SessionOp) : DBState :=
  ops.foldl applySessionOp s

/-- `SCHEMA_CODE` from `src/nmdp/db.py` (the bytes "NMDP" as a 32-bit
application id). -/
def SCHEMA_CODE : Int := 1346653518

/-- `SCHEMA_VER` from `src/nmdp/db.py`. -/
def SCHEMA_VER : Int := 3

/-- A SQLite database file as `db.py` sees it: the `application_id` and
`user_version` header pragmas plus the table content. -/
structure StoreFile where
  applicationId : Int
  userVersion : Int
  db : DB
deriving DecidableEq, Repr

/-- The failure modes of `open_db`: it prints and exits when the
application id differs from `SCHEMA_CODE` (the spec's WrongIdentifier)
or, that check having passed, when the user version differs from
`SCHEMA_VER` (the spec's UnsupportedVersion). -/
inductive OpenError where
  | wrongIdentifier
  | unsupportedVersion
deriving DecidableEq, Repr

/-- `open_db` from `src/nmdp/db.py`: read `PRAGMA application_id` and
`PRAGMA user_version` and compare them to the constants, in that order;
on success return a live `NMDPConnection` with no outstanding
transaction and `need_optimize` unset.  No table is read or written on
any path. -/
def open_db (f : StoreFile) : Except OpenError DBState :=
  if f.applicationId ≠ SCHEMA_CODE then .error .wrongIdentifier
  else if f.userVersion ≠ SCHEMA_VER then .error .unsupportedVersion
  else .ok { committed := f.db, pending := f.db, needOptimize := false }

/-- A SQLite database file at the statement level `setup_db` works at:
the two header pragmas plus, for each of the two tables, whether a
table of that name exists and its rows.  (`StoreFile` above is the
validated view `open_db` works at, where both tables are present by
construction.) -/
structure SqliteFile where
  applicationId : Int
  userVersion : Int
  hasFiles : Bool
  filesRows : List (String × NMDPFile)
  hasCodes : Bool
  codesRows : List (String × List Nat)
deriving DecidableEq, Repr

/-- The database `sqlite3.connect` materializes at a path where no file
exists: no tables, `application_id` 0 and `user_version` 0 (SQLite's
defaults for a fresh database). -/
def emptySqliteFile : SqliteFile :=
  { applicationId := 0, userVersion := 0, hasFiles := false,
    filesRows := [], hasCodes := false, codesRows := [] }

/-- The connection `setup_db` holds: with `autocommit=False` every
statement runs inside one implicit transaction, so `committed` is the
durable on-disk content and `pending` is what the open transaction
sees. -/
structure SetupConn where
  committed : SqliteFile
  pending : SqliteFile
deriving DecidableEq, Repr

/-- `sqlite3.connect(path, autocommit=False)`: open the existing file,
or create a fresh empty database when nothing is at the path; no
transaction is outstanding yet. -/
def sqliteConnect : Option SqliteFile → SetupConn
  | some f => { committed := f, pending := f }
  | none => { committed := emptySqliteFile, pending := emptySqliteFile }

/-- `PRAGMA journal_mode = DELETE`: selects the (default) rollback
journal; no effect on the database content. -/
def pragmaJournalModeDelete (f : SqliteFile) : SqliteFile := f

/-- `PRAGMA application_id = n`: writes the header field; under
`autocommit=False` this write sits in the open transaction. -/
def pragmaSetApplicationId (n : Int) (f : SqliteFile) : SqliteFile :=
  { f with applicationId := n }

/-- `PRAGMA user_version = n`: writes the header field; under
`autocommit=False` this write sits in the open transaction. -/
def pragmaSetUserVersion (n : Int) (f : SqliteFile) : SqliteFile :=
  { f with userVersion := n }

/-- The `OperationalError` a `CREATE TABLE` statement raises when a
table of that name already exists (the spec's AlreadyExists). -/
inductive CreateError where
  | alreadyExists
deriving DecidableEq, Repr

/-- `CREATE TABLE Files(...)`: fails iff a table named `Files` already
exists, otherwise creates it empty. -/
def createTableFiles (f : SqliteFile) : Except CreateError SqliteFile :=
  if f.hasFiles then .error .alreadyExists
  else .ok { f with hasFiles := true, filesRows := [] }

/-- `CREATE TABLE Codes(...)`: fails iff a table named `Codes` already
exists, otherwise creates it empty. -/
def createTableCodes (f : SqliteFile) : Except CreateError SqliteFile :=
  if f.hasCodes then .error .alreadyExists
  else .ok { f with hasCodes := true, codesRows := [] }

/-- `con.commit()`: the pending content becomes durable. -/
def connCommit (c : SetupConn) : SetupConn :=
  { c with committed := c.pending }

/-- `PRAGMA optimize`: storage-engine maintenance; no effect on the
database content. -/
def pragmaOptimize (f : SqliteFile) : SqliteFile := f

/-- Closing the connection (explicitly, or when an escaping exception
abandons it): an open transaction is rolled back, so the file on disk
afterwards holds the committed content. -/
def connCloseFile (c : SetupConn) : SqliteFile := c.committed

/-- `setup_db` from `src/nmdp/db.py` lines 53-79, statement by
statement: connect (creating an empty database when nothing is at the
path — the source checks nothing beforehand), set the journal mode, the
application id and the user version, create the `Files` and `Codes`
tables, commit, run `PRAGMA optimize`, commit again, and close.  A
`CREATE TABLE` failure propagates out of the function with no commit
ever issued, so closing the abandoned connection rolls the pragma
writes back.  The returned pair is the outcome and the file on disk
afterwards; on success the store is left closed (no handle escapes). -/
def setup_db (loc : Option SqliteFile) :
    Except CreateError Unit × Option SqliteFile :=
  let con := sqliteConnect loc
  let p1 := pragmaJournalModeDelete con.pending
  let p2 := pragmaSetApplicationId SCHEMA_CODE p1
  let p3 := pragmaSetUserVersion SCHEMA_VER p2
  match createTableFiles p3 with
  | .error e => (.error e, some (connCloseFile { con with pending := p3 }))
  | .ok p4 =>
      match createTableCodes p4 with
      | .error e => (.error e, some (connCloseFile { con with pending := p4 }))
      | .ok p5 =>
          let c1 := connCommit { con with pending := p5 }
          let c2 := connCommit { c1 with pending := pragmaOptimize c1.pending }
          (.ok (), some (connCloseFile c2))

/-- Does a file hold an NMDP store?  Every store `setup_db` produces
has both tables.  (The failure below needs only the `Files` table,
which every NMDP store has.) -/
def isNmdpStore (f : SqliteFile) : Bool :=
  f.hasFiles && f.hasCodes

/-- A concrete existing NMDP store (the one `setup_db` itself
produces). -/
def existingStoreExample : SqliteFile :=
  { applicationId := 1346653518, userVersion := 3, hasFiles := true,
    filesRows := [], hasCodes := true, codesRows := [] }

/-- The two terminal outcomes of one `demo.py` run: the up-to-date
early exit and the full reconciliation. -/
inductive Outcome where
  | upToDate
  | reconciled
deriving DecidableEq, Repr

/-- The in-memory state threaded through the record-stream loop of
`demo.py` (lines 216-252): a storage-operation counter for the fault
schedule, the pending table content, `db_codes_to_remove`,
`db_codes_added`, `db_codes_changed`, and a count of write statements
executed so far. -/
structure LoopState where
  ops : Nat
  pend : DB
  toRemove : List String
  added : List String
  changed : List (String × (NMDPCode × NMDPCode))
  writes : Nat
deriving DecidableEq, Repr

/-- The state threaded through the removal pass of `demo.py`
(lines 263-266). -/
structure RemState where
  ops : Nat
  pend : DB
  writes : Nat
  removed : List (String × NMDPCode)
deriving DecidableEq, Repr

/-- What a completed `demo.py` run reports: the final connection state,
the outcome, `db_codes_added`, `db_codes_changed`, `db_codes_removed`,
the number of write statements executed, and whether the single commit
happened. -/
structure RunResult where
  finalSt : DBState
  outcome : Outcome
  added : List String
  changed : List (String × (NMDPCode × NMDPCode))
  removed : List (String × NMDPCode)
  writes : Nat
  didCommit : Bool
deriving DecidableEq, Repr

/-- A fault schedule: `fs n = true` injects a storage-engine failure at
the n-th storage operation of the run.  `noFault` is the schedule of a
run without storage failures. -/
def noFault : Nat → Bool := fun _ => false

/-- The record-stream loop of `demo.py` (lines 216-252).  For each
incoming `(code, subtype)` pair: if the code is not in
`db_codes_to_remove` it is recorded as added and upserted; otherwise it
is removed from `db_codes_to_remove`, the stored record is read and
compared, and on a difference the pair of old and new records is stored
in `db_codes_changed` (re-reading the old record, as the source does)
and the row is overwritten.  A storage fault or a codec fault aborts
with the pending content at that moment. -/
def loopStream (fs : Nat → Bool) :
    List (String × String) → LoopState → Except (Fault × DB) LoopState
  | [], ls => .ok ls
  | (code, subtype) :: rest, ls =>
      let obj : NMDPCode := ⟨subtype⟩
      if code ∈ ls.toRemove then
        let tr := ls.toRemove.filter (fun x => x != code)
        if fs ls.ops then .error (.storageFault, ls.pend)
        else
          match NMDPCodes.getItem ls.pend code with
          | .error e => .error (e, ls.pend)
          | .ok old =>
              if old = obj then
                loopStream fs rest { ls with toRemove := tr, ops := ls.ops + 1 }
              else
                if fs (ls.ops + 1) then .error (.storageFault, ls.pend)
                else
                  match NMDPCodes.getItem ls.pend code with
                  | .error e => .error (e, ls.pend)
                  | .ok old2 =>
                      if fs (ls.ops + 2) then .error (.storageFault, ls.pend)
                      else
                        match NMDPCodes.setItem ls.pend code obj with
                        | .error e => .error (e, ls.pend)
                        | .ok pend2 =>
                            loopStream fs rest
                              { ops := ls.ops + 3, pend := pend2, toRemove := tr,
                                added := ls.added,
                                changed := tabUpsert ls.changed code (old2, obj),
                                writes := ls.writes + 1 }
      else
        if fs ls.ops then .error (.storageFault, ls.pend)
        else
          match NMDPCodes.setItem ls.pend code obj with
          | .error e => .error (e, ls.pend)
          | .ok pend2 =>
              loopStream fs rest
                { ls with
                  ops := ls.ops + 1, pend := pend2,
                  added := setInsert ls.added code, writes := ls.writes + 1 }

/-- The removal pass of `demo.py` (lines 263-266): for every code still
pending removal, read its record (for the report), then delete the
row. -/
def removalLoop (fs : Nat → Bool) :
    List String → RemState → Except (Fault × DB) RemState
  | [], acc => .ok acc
  | k :: rest, acc =>
      if fs acc.ops then .error (.storageFault, acc.pend)
      else
        match NMDPCodes.getItem acc.pend k with
        | .error e => .error (e, acc.pend)
        | .ok v =>
            if fs (acc.ops + 1) then .error (.storageFault, acc.pend)
            else
              match NMDPCodes.delItem acc.pend k with
              | .error e => .error (e, acc.pend)
              | .ok pend2 =>
                  removalLoop fs rest
                    { ops := acc.ops + 2, pend := pend2,
                      writes := acc.writes + 1,
                      removed := acc.removed ++ [(k, v)] }

/-- The up-to-date test of `demo.py` (lines 177-189): the run skips the
update exactly when the member name is in the Files mapping and the
stored record's `modified` and `comment` equal the incoming ones. -/
def needToUpdate (db : DB) (name : String) (incoming : NMDPFile) : Bool :=
  match NMDPFiles.getItem db name with
  | .error _ => true
  | .ok stored =>
      !(decide (stored.modified = incoming.modified ∧
                stored.comment = incoming.comment))

/-- How many `Files` reads the short-circuiting up-to-date test issues:
one for the `in` test, one more when the name is present (the
`modified` comparison), and a third when `modified` also matches (the
`comment` comparison). -/
def fileReads (db : DB) (name : String) (incoming : NMDPFile) : Nat :=
  match NMDPFiles.getItem db name with
  | .error _ => 1
  | .ok stored => if stored.modified = incoming.modified then 3 else 2

/-- The update branch of `demo.py` (lines 195-270): write the incoming
`NMDPFile`, snapshot the current code keys as `db_codes_to_remove`, run
the stream loop, run the removal pass, and finally issue the single
commit.  `ops0` is the number of storage operations the up-to-date test
already used.  Every error exit carries the connection state at the
fault, whose committed content is untouched. -/
def updateRun (fs : Nat → Bool) (s : DBState) (ops0 : Nat) (name : String)
    (incoming : NMDPFile) (stream : List (String × String)) :
    Except (Fault × DBState) RunResult :=
  if fs ops0 then .error (.storageFault, s)
  else
    let pend1 := NMDPFiles.setItem s.pending name incoming
    if fs (ops0 + 1) then
      .error (.storageFault,
        { committed := s.committed, pending := pend1,
          needOptimize := s.needOptimize })
    else
      let toRem := dedupKeys (tabKeys pend1.codes)
      match loopStream fs stream
          { ops := ops0 + 2, pend := pend1, toRemove := toRem,
            added := [], changed := [], writes := 1 } with
      | .error (f, pendE) =>
          .error (f,
            { committed := s.committed, pending := pendE,
              needOptimize := s.needOptimize })
      | .ok ls =>
          match removalLoop fs ls.toRemove
              { ops := ls.ops, pend := ls.pend, writes := ls.writes,
                removed := [] } with
          | .error (f, pendE) =>
              .error (f,
                { committed := s.committed, pending := pendE,
                  needOptimize := s.needOptimize })
          | .ok rs =>
              if fs rs.ops then
                .error (.storageFault,
                  { committed := s.committed, pending := rs.pend,
                    needOptimize := s.needOptimize })
              else
                .ok { finalSt := { committed := rs.pend, pending := rs.pend,
                                   needOptimize := true },
                      outcome := .reconciled, added := ls.added,
                      changed := ls.changed, removed := rs.removed,
                      writes := rs.writes, didCommit := true }

/-- One whole `demo.py` reconciliation run over an open connection:
the up-to-date test (whose reads the fault schedule can also hit),
then either the up-to-date early exit — no writes, no commit — or the
update branch ending in the single commit. -/
def runDemo (fs : Nat → Bool) (s : DBState) (name : String)
    (incoming : NMDPFile) (stream : List (String × String)) :
    Except (Fault × DBState) RunResult :=
  if (List.range (fileReads s.pending name incoming)).any fs then
    .error (.storageFault, s)
  else
    if needToUpdate s.pending name incoming then
      updateRun fs s (fileReads s.pending name incoming) name incoming stream
    else
      .ok { finalSt := s, outcome := .upToDate, added := [], changed := [],
            removed := [], writes := 0, didCommit := false }

/-- The keys occurring in an incoming record stream, in order. -/
def streamKeys (stream : List (String × String)) : List String :=
  stream.map Prod.fst

/-- How many records of the stream carry this key. -/
def countOcc (stream : List (String × String)) (key : String) : Nat :=
  (stream.filter (fun p => p.1 == key)).length

/-- The subtype of the first record of the stream with this key. -/
def firstAssoc : List (String × String) → String → Option String
  | [], _ => none
  | (k, v) :: rest, key =>
      if k = key then some v else firstAssoc rest key

/-- The subtype of the last record of the stream with this key (the one
whose write survives the run). -/
def lastAssoc : List (String × String) → String → Option String
  | [], _ => none
  | (k, v) :: rest, key =>
      match lastAssoc rest key with
      | some w => some w
      | none => if k = key then some v else none

/-- A fixed incoming `NMDPFile` used by the concrete example runs. -/
def demoFile : NMDPFile :=
  { modified := ⟨2024, 1, 2, 3, 4, 5⟩, comment := "hello" }

/-- The code points of an ASCII string, as stored bytes. -/
def bytesOf (s : String) : List Nat :=
  s.data.map Char.toNat

/-- The compressed payload the store holds for a subtype string. -/
def payloadOf (s : String) : List Nat :=
  rleCompress (bytesOf s)

/-- An empty database content. -/
def dbEmpty : DB := { files := [], codes := [] }

/-- A connection state over stored codes `A ↦ "x"`, `B ↦ "y"` with no
files row and no pending writes. -/
def st0 : DBState :=
  { committed := { files := [],
                   codes := [("A", payloadOf "x"), ("B", payloadOf "y")] },
    pending := { files := [],
                 codes := [("A", payloadOf "x"), ("B", payloadOf "y")] },
    needOptimize := false }

/-- The incoming stream of the spec's diff-correctness example:
`[(A,"x"), (C,"z")]`. -/
def strm0 : List (String × String) := [("A", "x"), ("C", "z")]

/-- A placeholder result used when an example run errors (never the
case for the concrete runs below). -/
def fallbackResult : RunResult :=
  { finalSt := { committed := dbEmpty, pending := dbEmpty,
                 needOptimize := false },
    outcome := .upToDate, added := [], changed := [], removed := [],
    writes := 0, didCommit := false }

/-- The result of the fault-free example run on `st0` with `strm0`. -/
def res0 : RunResult :=
  match runDemo noFault st0 "alpha.v3.txt" demoFile strm0 with
  | .ok r => r
  | .error _ => fallbackResult

/-- A connection state whose store holds exactly `A ↦ "x"`. -/
def stDupA : DBState :=
  { committed := { files := [], codes := [("A", payloadOf "x")] },
    pending := { files := [], codes := [("A", payloadOf "x")] },
    needOptimize := false }

/-- A stream that repeats the stored key `A` with its stored subtype. -/
def strmDup : List (String × String) := [("A", "x"), ("A", "x")]

/-- The result of the fault-free run on `stDupA` with `strmDup`. -/
def resDup : RunResult :=
  match runDemo noFault stDupA "alpha.v3.txt" demoFile strmDup with
  | .ok r => r
  | .error _ => fallbackResult

/-- A database whose stored payload for code `A` is not decodable
(`[0, 65]` is rejected by the decompressor). -/
def badPayloadDB : DB := { files := [], codes := [("A", [0, 65])] }

/-- The fault schedule that fails the very first storage operation. -/
def allFault : Nat → Bool := fun _ => true

/-- A store file carrying the expected identifier and version. -/
def goodStore : StoreFile :=
  { applicationId := 1346653518, userVersion := 3, db := dbEmpty }

/-- A store file carrying a foreign application identifier. -/
def badIdStore : StoreFile :=
  { applicationId := 7, userVersion := 3, db := dbEmpty }

/-- A store file carrying an unsupported schema version. -/
def badVerStore : StoreFile :=
  { applicationId := 1346653518, userVersion := 2, db := dbEmpty }

/-- The database content after upserting `A ↦ "ab"` into the empty
store through the mapping. -/
def dbAfterSet : DB :=
  match NMDPCodes.setItem dbEmpty "A" ⟨"ab"⟩ with
  | .ok d => d
  | .error _ => dbEmpty

@[simp] theorem tabGet_nil {α : Type} (key : String) :
    tabGet ([] : List (String × α)) key = none := rfl

theorem tabGet_upsert_self {α : Type} (t : List (String × α)) (key : String) (v : α) :
    tabGet (tabUpsert t key v) key = some v := by
  induction t with
  | nil => simp [tabGet, tabUpsert]
  | cons p rest ih =>
      obtain ⟨k, w⟩ := p
      by_cases h : k = key <;> simp [tabGet, tabUpsert, h, ih]

theorem tabGet_upsert_ne {α : Type} (t : List (String × α)) (key k' : String) (v : α)
    (h : k' ≠ key) : tabGet (tabUpsert t key v) k' = tabGet t k' := by
  have hne : key ≠ k' := fun hh => h hh.symm
  induction t with
  | nil => simp [tabGet, tabUpsert, hne]
  | cons p rest ih =>
      obtain ⟨k, w⟩ := p
      by_cases hk : k = key
      · subst hk
        simp [tabGet, tabUpsert, hne]
      · simp only [tabUpsert, if_neg hk]
        by_cases hk' : k = k' <;> simp [tabGet, hk', ih]

theorem tabGet_delete_self {α : Type} (t : List (String × α)) (key : String) :
    tabGet (tabDelete t key) key = none := by
  induction t with
  | nil => simp [tabDelete]
  | cons p rest ih =>
      obtain ⟨k, w⟩ := p
      by_cases h : k = key <;> simp [tabDelete, tabGet, h, ih]

theorem tabGet_delete_ne {α : Type} (t : List (String × α)) (key k' : String)
    (h : k' ≠ key) : tabGet (tabDelete t key) k' = tabGet t k' := by
  have hne : key ≠ k' := fun hh => h hh.symm
  induction t with
  | nil => simp [tabDelete]
  | cons p rest ih =>
      obtain ⟨k, w⟩ := p
      by_cases hk : k = key
      · subst hk
        simp [tabDelete, tabGet, hne, ih]
      · by_cases hk' : k = k'
        · subst hk'
          rw [tabDelete, if_neg hk]
          simp [tabGet]
        · simp [tabDelete, tabGet, hk, hk', ih]

theorem mem_tabKeys_iff {α : Type} (t : List (String × α)) (key : String) :
    key ∈ tabKeys t ↔ (tabGet t key).isSome := by
  induction t with
  | nil => simp [tabKeys, tabGet]
  | cons p rest ih =>
      obtain ⟨k, w⟩ := p
      by_cases h : k = key
      · subst h
        simp [tabKeys, tabGet]
      · have hne : ¬key = k := fun hh => h hh.symm
        simp only [tabKeys, List.map_cons, List.mem_cons, tabGet, if_neg h]
        rw [← tabKeys]
        simp [hne, ih]

@[simp] theorem mem_dedupKeys (l : List String) (k : String) :
    k ∈ dedupKeys l ↔ k ∈ l := by
  induction l with
  | nil => simp [dedupKeys]
  | cons a rest ih =>
      by_cases h : a ∈ rest
      · simp only [dedupKeys, if_pos h, ih, List.mem_cons]
        constructor
        · exact Or.inr
        · rintro (rfl | hk)
          · exact h
          · exact hk
      · simp [dedupKeys, if_neg h, ih]

theorem mem_setInsert (l : List String) (k x : String) :
    x ∈ setInsert l k ↔ x ∈ l ∨ x = k := by
  by_cases h : k ∈ l
  · simp only [setInsert, if_pos h]
    constructor
    · exact Or.inl
    · rintro (hx | rfl)
      · exact hx
      · exact h
  · simp [setInsert, if_neg h]

theorem mem_setInsert_self (l : List String) (k : String) :
    k ∈ setInsert l k := (mem_setInsert l k k).mpr (Or.inr rfl)

theorem rleDecompress_compressAux (l : List Nat) :
    ∀ (n b : Nat), n ≠ 0 →
      rleDecompress (rleCompressAux n b l) = some (List.replicate n b ++ l) := by
  induction l with
  | nil =>
      intro n b hn
      simp [rleCompressAux, rleDecompress, hn]
  | cons c rest ih =>
      intro n b hn
      by_cases hc : c = b
      · subst hc
        rw [rleCompressAux, if_pos rfl, ih (n + 1) c (Nat.succ_ne_zero n)]
        congr 1
        rw [List.replicate_succ' (n := n)]
        simp
      · rw [rleCompressAux, if_neg hc, rleDecompress, if_neg hn,
          ih 1 c (by omega)]
        simp [rleDecompress]

theorem rleDecompress_rleCompress (l : List Nat) :
    rleDecompress (rleCompress l) = some l := by
  cases l with
  | nil => rfl
  | cons b rest =>
      rw [rleCompress, rleDecompress_compressAux rest 1 b (by omega)]
      simp

theorem asciiDecode_asciiEncode (s : String) (bs : List Nat)
    (h : asciiEncode s = some bs) : asciiDecode bs = some s := by
  unfold asciiEncode at h
  split at h
  · next hall =>
      cases h
      unfold asciiDecode
      rw [if_pos]
      · congr 1
        cases s with
        | mk data =>
            simp only [List.map_map]
            rw [List.map_congr_left (g := id), List.map_id]
            intro c hc
            simp only [allAscii, List.all_eq_true] at hall
            have hlt : c.toNat < 128 := by simpa using hall c hc
            simp [Char.ofNat_toNat]
      · simp only [List.all_eq_true]
        intro b hb
        simp only [List.mem_map] at hb
        obtain ⟨c, hc, rfl⟩ := hb
        simp only [allAscii, List.all_eq_true] at hall
        simpa using hall c hc
  · cases h

theorem NMDPCodes.setItem_files (db db2 : DB) (key : String) (v : NMDPCode)
    (h : NMDPCodes.setItem db key v = .ok db2) : db2.files = db.files := by
  unfold NMDPCodes.setItem at h
  split at h
  · cases h
  · cases h
    rfl

theorem NMDPCodes.setItem_getItem_self (db db2 : DB) (key : String) (v : NMDPCode)
    (h : NMDPCodes.setItem db key v = .ok db2) :
    NMDPCodes.getItem db2 key = .ok v := by
  unfold NMDPCodes.setItem at h
  split at h
  · cases h
  · next payload henc =>
      cases h
      unfold encodeSubtype at henc
      split at henc
      · cases henc
      · next bs hasc =>
          cases henc
          unfold NMDPCodes.getItem decodeSubtype
          rw [show tabGet ({ db with codes := tabUpsert db.codes key (rleCompress bs) } : DB).codes key = some (rleCompress bs) from tabGet_upsert_self _ _ _]
          simp only [rleDecompress_rleCompress, asciiDecode_asciiEncode _ _ hasc]

theorem NMDPCodes.setItem_codes_ne (db db2 : DB) (key k' : String) (v : NMDPCode)
    (h : NMDPCodes.setItem db key v = .ok db2) (hne : k' ≠ key) :
    tabGet db2.codes k' = tabGet db.codes k' := by
  unfold NMDPCodes.setItem at h
  split at h
  · cases h
  · cases h
    exact tabGet_upsert_ne _ _ _ _ hne

theorem NMDPCodes.getItem_congr (db db2 : DB) (key : String)
    (h : tabGet db2.codes key = tabGet db.codes key) :
    NMDPCodes.getItem db2 key = NMDPCodes.getItem db key := by
  unfold NMDPCodes.getItem
  rw [h]

@[simp] theorem streamKeys_nil : streamKeys [] = [] := rfl

@[simp] theorem streamKeys_cons (k v : String) (rest : List (String × String)) :
    streamKeys ((k, v) :: rest) = k :: streamKeys rest := rfl

theorem lastAssoc_eq_none_iff (stream : List (String × String)) (key : String) :
    lastAssoc stream key = none ↔ key ∉ streamKeys stream := by
  induction stream with
  | nil => simp [lastAssoc]
  | cons p rest ih =>
      obtain ⟨k, v⟩ := p
      simp only [lastAssoc, streamKeys_cons, List.mem_cons, not_or]
      rw [← ih]
      cases hl : lastAssoc rest key with
      | some w => simp
      | none =>
          by_cases hk : k = key <;>
            simp [hk, eq_comm (a := key) (b := k)]

theorem firstAssoc_eq_none_iff (stream : List (String × String)) (key : String) :
    firstAssoc stream key = none ↔ key ∉ streamKeys stream := by
  induction stream with
  | nil => simp [firstAssoc]
  | cons p rest ih =>
      obtain ⟨k, v⟩ := p
      simp only [firstAssoc, streamKeys_cons, List.mem_cons, not_or]
      rw [← ih]
      by_cases hk : k = key <;> simp [hk, eq_comm (a := key) (b := k)]

theorem countOcc_cons_self (rest : List (String × String)) (key : String) (v : String) :
    countOcc ((key, v) :: rest) key = countOcc rest key + 1 := by
  simp [countOcc, List.filter_cons]

theorem countOcc_cons_ne (rest : List (String × String)) (k key v : String)
    (h : k ≠ key) : countOcc ((k, v) :: rest) key = countOcc rest key := by
  simp [countOcc, List.filter_cons, h]

theorem countOcc_pos_of_mem (stream : List (String × String)) (key : String)
    (h : key ∈ streamKeys stream) : 1 ≤ countOcc stream key := by
  induction stream with
  | nil => simp at h
  | cons p rest ih =>
      obtain ⟨k, v⟩ := p
      simp only [streamKeys_cons, List.mem_cons] at h
      by_cases hk : k = key
      · subst hk
        rw [countOcc_cons_self]
        omega
      · rcases h with h | h
        · exact absurd h.symm hk
        · rw [countOcc_cons_ne _ _ _ _ hk]
          exact ih h

theorem countOcc_eq_zero_of_not_mem (stream : List (String × String)) (key : String)
    (h : key ∉ streamKeys stream) : countOcc stream key = 0 := by
  induction stream with
  | nil => rfl
  | cons p rest ih =>
      obtain ⟨k, v⟩ := p
      simp only [streamKeys_cons, List.mem_cons, not_or] at h
      rw [countOcc_cons_ne _ _ _ _ (fun hh => h.1 hh.symm)]
      exact ih h.2

theorem mem_filter_ne (l : List String) (code k : String) :
    k ∈ l.filter (fun x => x != code) ↔ k ∈ l ∧ k ≠ code := by
  simp [List.mem_filter]

theorem NMDPCodes.getItem_setItem_ne (db db2 : DB) (key k' : String) (v : NMDPCode)
    (h : NMDPCodes.setItem db key v = .ok db2) (hne : k' ≠ key) :
    NMDPCodes.getItem db2 k' = NMDPCodes.getItem db k' :=
  NMDPCodes.getItem_congr _ _ _ (NMDPCodes.setItem_codes_ne _ _ _ _ _ h hne)

theorem lastAssoc_cons_some (k v key w : String) (rest : List (String × String))
    (h : lastAssoc rest key = some w) :
    lastAssoc ((k, v) :: rest) key = some w := by
  rw [lastAssoc, h]

theorem lastAssoc_cons_none (k v key : String) (rest : List (String × String))
    (h : lastAssoc rest key = none) :
    lastAssoc ((k, v) :: rest) key = (if k = key then some v else none) := by
  rw [lastAssoc, h]

/-- The induction workhorse for the record-stream loop: a successful
pass over `stream` starting from loop state `ls` (i) leaves the `Files`
table alone, (ii) leaves every key outside the stream untouched in all
four components, (iii) stores the last occurrence's subtype for every
stream key and clears it from the pending-removal set, (iv) marks a
stream key added iff it was already marked, or was outside the
pending-removal set at its first occurrence, or occurs at least twice,
(v, vi) records a changed pair exactly when the first occurrence of a
pending-removal key differs from its stored record, and (vii) read the
stored record of every pending-removal stream key successfully. -/
theorem loopStream_spec (fs : Nat → Bool) (stream : List (String × String)) :
    ∀ (ls ls' : LoopState), loopStream fs stream ls = .ok ls' →
      ls'.pend.files = ls.pend.files ∧
      (∀ k, k ∉ streamKeys stream →
        tabGet ls'.pend.codes k = tabGet ls.pend.codes k ∧
        (k ∈ ls'.toRemove ↔ k ∈ ls.toRemove) ∧
        (k ∈ ls'.added ↔ k ∈ ls.added) ∧
        tabGet ls'.changed k = tabGet ls.changed k) ∧
      (∀ k v, lastAssoc stream k = some v →
        NMDPCodes.getItem ls'.pend k = .ok ⟨v⟩ ∧ k ∉ ls'.toRemove) ∧
      (∀ k, k ∈ streamKeys stream →
        (k ∈ ls'.added ↔
          (k ∈ ls.added ∨ k ∉ ls.toRemove ∨ 2 ≤ countOcc stream k))) ∧
      (∀ k v w, firstAssoc stream k = some v → k ∈ ls.toRemove →
        NMDPCodes.getItem ls.pend k = .ok ⟨w⟩ →
        tabGet ls'.changed k =
          (if w = v then tabGet ls.changed k else some (⟨w⟩, ⟨v⟩))) ∧
      (∀ k, k ∈ streamKeys stream → k ∉ ls.toRemove →
        tabGet ls'.changed k = tabGet ls.changed k) ∧
      (∀ k, k ∈ streamKeys stream → k ∈ ls.toRemove →
        ∃ w, NMDPCodes.getItem ls.pend k = .ok ⟨w⟩) := by
  induction stream with
  | nil =>
      intro ls ls' h
      simp only [loopStream] at h
      cases h
      refine ⟨rfl, ?_, ?_, ?_, ?_, ?_, ?_⟩
      · intro k _
        exact ⟨rfl, Iff.rfl, Iff.rfl, rfl⟩
      · intro k v hl
        simp [lastAssoc] at hl
      · intro k hk
        simp at hk
      · intro k v w hf _ _
        simp [firstAssoc] at hf
      · intro k hk _
        simp at hk
      · intro k hk _
        simp at hk
  | cons p rest ih =>
      obtain ⟨code, subtype⟩ := p
      intro ls ls' h
      simp only [loopStream] at h
      by_cases hmem : code ∈ ls.toRemove
      · rw [if_pos hmem] at h
        by_cases hf0 : fs ls.ops = true
        · rw [if_pos hf0] at h
          simp at h
        · rw [if_neg hf0] at h
          cases hget : NMDPCodes.getItem ls.pend code with
          | error e =>
              rw [hget] at h
              simp at h
          | ok old =>
              rw [hget] at h
              simp only at h
              by_cases hoe : old = (⟨subtype⟩ : NMDPCode)
              · rw [if_pos hoe] at h
                obtain ⟨Hf, Hu, Hl, Ha, H5, H6, H7⟩ := ih _ _ h
                dsimp only at Hf Hu Hl Ha H5 H6 H7
                have hnotr : code ∉ List.filter (fun x => x != code) ls.toRemove := by
                  rw [mem_filter_ne]
                  rintro ⟨-, hne2⟩
                  exact hne2 rfl
                refine ⟨Hf, ?_, ?_, ?_, ?_, ?_, ?_⟩
                · intro k hk
                  rw [streamKeys_cons, List.mem_cons] at hk
                  push_neg at hk
                  obtain ⟨hc, ht, ha, hch⟩ := Hu k hk.2
                  refine ⟨hc, ?_, ha, hch⟩
                  rw [ht, mem_filter_ne]
                  simp [hk.1]
                · intro k v hlast
                  cases hrest : lastAssoc rest k with
                  | some w =>
                      rw [lastAssoc_cons_some _ _ _ _ _ hrest] at hlast
                      cases hlast
                      exact Hl k v hrest
                  | none =>
                      rw [lastAssoc_cons_none _ _ _ _ hrest] at hlast
                      by_cases hck : code = k
                      · rw [if_pos hck] at hlast
                        cases hlast
                        subst hck
                        have hnr : code ∉ streamKeys rest :=
                          (lastAssoc_eq_none_iff rest code).mp hrest
                        obtain ⟨hc, ht, -, -⟩ := Hu code hnr
                        constructor
                        · rw [NMDPCodes.getItem_congr ls.pend ls'.pend code hc,
                            hget, hoe]
                        · rw [ht]
                          exact hnotr
                      · rw [if_neg hck] at hlast
                        cases hlast
                · intro k hkmem
                  rw [streamKeys_cons, List.mem_cons] at hkmem
                  by_cases hkc : k = code
                  · subst hkc
                    by_cases hkr : k ∈ streamKeys rest
                    · have h2 : 2 ≤ countOcc ((k, subtype) :: rest) k := by
                        rw [countOcc_cons_self]
                        have := countOcc_pos_of_mem rest k hkr
                        omega
                      have hA := Ha k hkr
                      constructor
                      · intro _
                        exact Or.inr (Or.inr h2)
                      · intro _
                        exact hA.mpr (Or.inr (Or.inl hnotr))
                    · obtain ⟨-, -, ha, -⟩ := Hu k hkr
                      rw [ha]
                      have hcnt : countOcc ((k, subtype) :: rest) k = 1 := by
                        rw [countOcc_cons_self,
                          countOcc_eq_zero_of_not_mem rest k hkr]
                      constructor
                      · exact Or.inl
                      · rintro (hx | hx | hx)
                        · exact hx
                        · exact absurd hmem hx
                        · rw [hcnt] at hx
                          omega
                  · have hkr : k ∈ streamKeys rest := hkmem.resolve_left hkc
                    have hA := Ha k hkr
                    rw [hA, countOcc_cons_ne rest code k subtype
                      (fun hh => hkc hh.symm)]
                    have hmf : (k ∉ List.filter (fun x => x != code) ls.toRemove)
                        ↔ k ∉ ls.toRemove := by
                      rw [mem_filter_ne]
                      simp [hkc]
                    rw [hmf]
                · intro k v w hfirst hkrem hgetw
                  by_cases hkc : k = code
                  · subst hkc
                    rw [firstAssoc, if_pos rfl] at hfirst
                    have hv : subtype = v := Option.some.inj hfirst
                    have hw : old = (⟨w⟩ : NMDPCode) := by
                      rw [hget] at hgetw
                      exact Except.ok.inj hgetw
                    have hwv : w = v := by
                      have h1 : (⟨w⟩ : NMDPCode) = ⟨subtype⟩ := hw.symm.trans hoe
                      exact (congrArg NMDPCode.subtype h1).trans hv
                    rw [if_pos hwv]
                    by_cases hcr : k ∈ streamKeys rest
                    · exact H6 k hcr hnotr
                    · obtain ⟨-, -, -, hch⟩ := Hu k hcr
                      exact hch
                  · have hfirst' : firstAssoc rest k = some v := by
                      rw [firstAssoc, if_neg (fun hh => hkc hh.symm)] at hfirst
                      exact hfirst
                    have hkrem' : k ∈ List.filter (fun x => x != code) ls.toRemove :=
                      (mem_filter_ne _ _ _).mpr ⟨hkrem, hkc⟩
                    exact H5 k v w hfirst' hkrem' hgetw
                · intro k hkmem hknot
                  rw [streamKeys_cons, List.mem_cons] at hkmem
                  by_cases hkc : k = code
                  · subst hkc
                    exact absurd hmem hknot
                  · have hkr : k ∈ streamKeys rest := hkmem.resolve_left hkc
                    have hknot' : k ∉ List.filter (fun x => x != code) ls.toRemove := by
                      rw [mem_filter_ne]
                      rintro ⟨hx, -⟩
                      exact hknot hx
                    exact H6 k hkr hknot'
                · intro k hkmem hkrem
                  rw [streamKeys_cons, List.mem_cons] at hkmem
                  by_cases hkc : k = code
                  · subst hkc
                    exact ⟨old.subtype, by rw [hget]⟩
                  · have hkr : k ∈ streamKeys rest := hkmem.resolve_left hkc
                    have hkrem' : k ∈ List.filter (fun x => x != code) ls.toRemove :=
                      (mem_filter_ne _ _ _).mpr ⟨hkrem, hkc⟩
                    exact H7 k hkr hkrem'
              · rw [if_neg hoe] at h
                by_cases hf1 : fs (ls.ops + 1) = true
                · rw [if_pos hf1] at h
                  simp at h
                · rw [if_neg hf1] at h
                  by_cases hf2 : fs (ls.ops + 2) = true
                  · rw [if_pos hf2] at h
                    simp at h
                  · rw [if_neg hf2] at h
                    cases hset : NMDPCodes.setItem ls.pend code ⟨subtype⟩ with
                    | error e =>
                        rw [hset] at h
                        simp at h
                    | ok pend2 =>
                        rw [hset] at h
                        simp only at h
                        obtain ⟨Hf, Hu, Hl, Ha, H5, H6, H7⟩ := ih _ _ h
                        dsimp only at Hf Hu Hl Ha H5 H6 H7
                        have hnotr : code ∉ List.filter (fun x => x != code) ls.toRemove := by
                          rw [mem_filter_ne]
                          rintro ⟨-, hne2⟩
                          exact hne2 rfl
                        refine ⟨Hf.trans (NMDPCodes.setItem_files _ _ _ _ hset),
                          ?_, ?_, ?_, ?_, ?_, ?_⟩
                        · intro k hk
                          rw [streamKeys_cons, List.mem_cons] at hk
                          push_neg at hk
                          obtain ⟨hc, ht, ha, hch⟩ := Hu k hk.2
                          refine ⟨hc.trans
                            (NMDPCodes.setItem_codes_ne _ _ _ _ _ hset hk.1),
                            ?_, ha, ?_⟩
                          · rw [ht, mem_filter_ne]
                            simp [hk.1]
                          · rw [hch]
                            exact tabGet_upsert_ne _ _ _ _ hk.1
                        · intro k v hlast
                          cases hrest : lastAssoc rest k with
                          | some w =>
                              rw [lastAssoc_cons_some _ _ _ _ _ hrest] at hlast
                              cases hlast
                              exact Hl k v hrest
                          | none =>
                              rw [lastAssoc_cons_none _ _ _ _ hrest] at hlast
                              by_cases hck : code = k
                              · rw [if_pos hck] at hlast
                                cases hlast
                                subst hck
                                have hnr : code ∉ streamKeys rest :=
                                  (lastAssoc_eq_none_iff rest code).mp hrest
                                obtain ⟨hc, ht, -, -⟩ := Hu code hnr
                                constructor
                                · rw [NMDPCodes.getItem_congr pend2 ls'.pend code hc]
                                  exact NMDPCodes.setItem_getItem_self _ _ _ _ hset
                                · rw [ht]
                                  exact hnotr
                              · rw [if_neg hck] at hlast
                                cases hlast
                        · intro k hkmem
                          rw [streamKeys_cons, List.mem_cons] at hkmem
                          by_cases hkc : k = code
                          · subst hkc
                            by_cases hkr : k ∈ streamKeys rest
                            · have h2 : 2 ≤ countOcc ((k, subtype) :: rest) k := by
                                rw [countOcc_cons_self]
                                have := countOcc_pos_of_mem rest k hkr
                                omega
                              have hA := Ha k hkr
                              constructor
                              · intro _
                                exact Or.inr (Or.inr h2)
                              · intro _
                                exact hA.mpr (Or.inr (Or.inl hnotr))
                            · obtain ⟨-, -, ha, -⟩ := Hu k hkr
                              rw [ha]
                              have hcnt : countOcc ((k, subtype) :: rest) k = 1 := by
                                rw [countOcc_cons_self,
                                  countOcc_eq_zero_of_not_mem rest k hkr]
                              constructor
                              · exact Or.inl
                              · rintro (hx | hx | hx)
                                · exact hx
                                · exact absurd hmem hx
                                · rw [hcnt] at hx
                                  omega
                          · have hkr : k ∈ streamKeys rest := hkmem.resolve_left hkc
                            have hA := Ha k hkr
                            rw [hA, countOcc_cons_ne rest code k subtype
                              (fun hh => hkc hh.symm)]
                            have hmf : (k ∉ List.filter (fun x => x != code) ls.toRemove)
                                ↔ k ∉ ls.toRemove := by
                              rw [mem_filter_ne]
                              simp [hkc]
                            rw [hmf]
                        · intro k v w hfirst hkrem hgetw
                          by_cases hkc : k = code
                          · subst hkc
                            rw [firstAssoc, if_pos rfl] at hfirst
                            have hv : subtype = v := Option.some.inj hfirst
                            have hw : old = (⟨w⟩ : NMDPCode) := by
                              rw [hget] at hgetw
                              exact Except.ok.inj hgetw
                            have hwv : ¬ w = v := by
                              intro hwv
                              apply hoe
                              rw [hw, hwv, ← hv]
                            rw [if_neg hwv]
                            by_cases hcr : k ∈ streamKeys rest
                            · have hp := H6 k hcr hnotr
                              rw [hp, tabGet_upsert_self, hw, hv]
                            · obtain ⟨-, -, -, hch⟩ := Hu k hcr
                              rw [hch, tabGet_upsert_self, hw, hv]
                          · have hfirst' : firstAssoc rest k = some v := by
                              rw [firstAssoc,
                                if_neg (fun hh => hkc hh.symm)] at hfirst
                              exact hfirst
                            have hkrem' : k ∈ List.filter (fun x => x != code) ls.toRemove :=
                              (mem_filter_ne _ _ _).mpr ⟨hkrem, hkc⟩
                            have hgetw' : NMDPCodes.getItem pend2 k = .ok ⟨w⟩ := by
                              rw [NMDPCodes.getItem_setItem_ne _ _ _ _ _ hset hkc]
                              exact hgetw
                            have h5 := H5 k v w hfirst' hkrem' hgetw'
                            rw [h5]
                            by_cases hwv : w = v
                            · rw [if_pos hwv, if_pos hwv,
                                tabGet_upsert_ne _ _ _ _ hkc]
                            · rw [if_neg hwv, if_neg hwv]
                        · intro k hkmem hknot
                          rw [streamKeys_cons, List.mem_cons] at hkmem
                          by_cases hkc : k = code
                          · subst hkc
                            exact absurd hmem hknot
                          · have hkr : k ∈ streamKeys rest := hkmem.resolve_left hkc
                            have hknot' : k ∉ List.filter (fun x => x != code) ls.toRemove := by
                              rw [mem_filter_ne]
                              rintro ⟨hx, -⟩
                              exact hknot hx
                            have hp := H6 k hkr hknot'
                            rw [hp]
                            exact tabGet_upsert_ne _ _ _ _ hkc
                        · intro k hkmem hkrem
                          rw [streamKeys_cons, List.mem_cons] at hkmem
                          by_cases hkc : k = code
                          · subst hkc
                            exact ⟨old.subtype, by rw [hget]⟩
                          · have hkr : k ∈ streamKeys rest := hkmem.resolve_left hkc
                            have hkrem' : k ∈ List.filter (fun x => x != code) ls.toRemove :=
                              (mem_filter_ne _ _ _).mpr ⟨hkrem, hkc⟩
                            obtain ⟨w, hw⟩ := H7 k hkr hkrem'
                            exact ⟨w, (NMDPCodes.getItem_setItem_ne _ _ _ _ _
                              hset hkc).symm.trans hw⟩
      · rw [if_neg hmem] at h
        by_cases hf0 : fs ls.ops = true
        · rw [if_pos hf0] at h
          simp at h
        · rw [if_neg hf0] at h
          cases hset : NMDPCodes.setItem ls.pend code ⟨subtype⟩ with
          | error e =>
              rw [hset] at h
              simp at h
          | ok pend2 =>
              rw [hset] at h
              simp only at h
              obtain ⟨Hf, Hu, Hl, Ha, H5, H6, H7⟩ := ih _ _ h
              dsimp only at Hf Hu Hl Ha H5 H6 H7
              refine ⟨Hf.trans (NMDPCodes.setItem_files _ _ _ _ hset),
                ?_, ?_, ?_, ?_, ?_, ?_⟩
              · intro k hk
                rw [streamKeys_cons, List.mem_cons] at hk
                push_neg at hk
                obtain ⟨hc, ht, ha, hch⟩ := Hu k hk.2
                refine ⟨hc.trans
                  (NMDPCodes.setItem_codes_ne _ _ _ _ _ hset hk.1),
                  ht, ?_, hch⟩
                rw [ha, mem_setInsert]
                simp [hk.1]
              · intro k v hlast
                cases hrest : lastAssoc rest k with
                | some w =>
                    rw [lastAssoc_cons_some _ _ _ _ _ hrest] at hlast
                    cases hlast
                    exact Hl k v hrest
                | none =>
                    rw [lastAssoc_cons_none _ _ _ _ hrest] at hlast
                    by_cases hck : code = k
                    · rw [if_pos hck] at hlast
                      cases hlast
                      subst hck
                      have hnr : code ∉ streamKeys rest :=
                        (lastAssoc_eq_none_iff rest code).mp hrest
                      obtain ⟨hc, ht, -, -⟩ := Hu code hnr
                      constructor
                      · rw [NMDPCodes.getItem_congr pend2 ls'.pend code hc]
                        exact NMDPCodes.setItem_getItem_self _ _ _ _ hset
                      · rw [ht]
                        exact hmem
                    · rw [if_neg hck] at hlast
                      cases hlast
              · intro k hkmem
                rw [streamKeys_cons, List.mem_cons] at hkmem
                by_cases hkc : k = code
                · subst hkc
                  by_cases hkr : k ∈ streamKeys rest
                  · have hA := Ha k hkr
                    constructor
                    · intro _
                      exact Or.inr (Or.inl hmem)
                    · intro _
                      exact hA.mpr (Or.inl (mem_setInsert_self _ _))
                  · obtain ⟨-, -, ha, -⟩ := Hu k hkr
                    constructor
                    · intro _
                      exact Or.inr (Or.inl hmem)
                    · intro _
                      exact ha.mpr (mem_setInsert_self _ _)
                · have hkr : k ∈ streamKeys rest := hkmem.resolve_left hkc
                  have hA := Ha k hkr
                  rw [hA, countOcc_cons_ne rest code k subtype
                    (fun hh => hkc hh.symm)]
                  have hsi : (k ∈ setInsert ls.added code) ↔ k ∈ ls.added := by
                    rw [mem_setInsert]
                    simp [hkc]
                  rw [hsi]
              · intro k v w hfirst hkrem hgetw
                have hkc : k ≠ code := fun hh => hmem (hh ▸ hkrem)
                have hfirst' : firstAssoc rest k = some v := by
                  rw [firstAssoc, if_neg (fun hh => hkc hh.symm)] at hfirst
                  exact hfirst
                have hgetw' : NMDPCodes.getItem pend2 k = .ok ⟨w⟩ := by
                  rw [NMDPCodes.getItem_setItem_ne _ _ _ _ _ hset hkc]
                  exact hgetw
                exact H5 k v w hfirst' hkrem hgetw'
              · intro k hkmem hknot
                rw [streamKeys_cons, List.mem_cons] at hkmem
                by_cases hkc : k = code
                · subst hkc
                  by_cases hcr : k ∈ streamKeys rest
                  · exact H6 k hcr hknot
                  · obtain ⟨-, -, -, hch⟩ := Hu k hcr
                    exact hch
                · exact H6 k (hkmem.resolve_left hkc) hknot
              · intro k hkmem hkrem
                have hkc : k ≠ code := fun hh => hmem (hh ▸ hkrem)
                have hkr : k ∈ streamKeys rest :=
                  (by
                    rw [streamKeys_cons, List.mem_cons] at hkmem
                    exact hkmem.resolve_left hkc)
                obtain ⟨w, hw⟩ := H7 k hkr hkrem
                exact ⟨w, (NMDPCodes.getItem_setItem_ne _ _ _ _ _
                  hset hkc).symm.trans hw⟩

theorem NMDPCodes.delItem_ok (db db2 : DB) (key : String)
    (h : NMDPCodes.delItem db key = .ok db2) :
    db2.files = db.files ∧ db2.codes = tabDelete db.codes key := by
  unfold NMDPCodes.delItem at h
  split at h
  · cases h
  · cases h
  · cases h
    exact ⟨rfl, rfl⟩

/-- The removal pass deletes exactly the listed keys: the `Files` table
and every other code row are untouched, and every listed key's rows are
gone afterwards. -/
theorem removalLoop_spec (fs : Nat → Bool) (ks : List String) :
    ∀ (acc acc' : RemState), removalLoop fs ks acc = .ok acc' →
      acc'.pend.files = acc.pend.files ∧
      (∀ k, k ∉ ks → tabGet acc'.pend.codes k = tabGet acc.pend.codes k) ∧
      (∀ k, k ∈ ks → tabGet acc'.pend.codes k = none) := by
  induction ks with
  | nil =>
      intro acc acc' h
      simp only [removalLoop] at h
      cases h
      exact ⟨rfl, fun _ _ => rfl, fun k hk => absurd hk (List.not_mem_nil k)⟩
  | cons k0 rest ih =>
      intro acc acc' h
      simp only [removalLoop] at h
      by_cases hf0 : fs acc.ops = true
      · rw [if_pos hf0] at h
        simp at h
      · rw [if_neg hf0] at h
        cases hget : NMDPCodes.getItem acc.pend k0 with
        | error e =>
            rw [hget] at h
            simp at h
        | ok v =>
            rw [hget] at h
            simp only at h
            by_cases hf1 : fs (acc.ops + 1) = true
            · rw [if_pos hf1] at h
              simp at h
            · rw [if_neg hf1] at h
              cases hdel : NMDPCodes.delItem acc.pend k0 with
              | error e =>
                  rw [hdel] at h
                  simp at h
              | ok pend2 =>
                  rw [hdel] at h
                  simp only at h
                  obtain ⟨Hf, Hu, Hd⟩ := ih _ _ h
                  dsimp only at Hf Hu Hd
                  obtain ⟨hdf, hdc⟩ := NMDPCodes.delItem_ok _ _ _ hdel
                  refine ⟨Hf.trans hdf, ?_, ?_⟩
                  · intro k hk
                    rw [List.mem_cons] at hk
                    push_neg at hk
                    rw [Hu k hk.2, hdc, tabGet_delete_ne _ _ _ hk.1]
                  · intro k hk
                    rw [List.mem_cons] at hk
                    by_cases hkk : k = k0
                    · subst hkk
                      by_cases hkr : k ∈ rest
                      · exact Hd k hkr
                      · rw [Hu k hkr, hdc]
                        exact tabGet_delete_self _ _
                    · rw [Hd k (hk.resolve_left hkk)]

/-- Dissection of a committed run: a successful `demo.py` run whose
single commit happened went through the update branch, so it is the
files write, the stream loop, the removal pass, and the commit, and the
reported result is assembled from the two loop states. -/
theorem runDemo_ok_committed (fs : Nat → Bool) (s : DBState) (name : String)
    (incoming : NMDPFile) (stream : List (String × String)) (r : RunResult)
    (h : runDemo fs s name incoming stream = .ok r) (hc : r.didCommit = true) :
    ∃ ls rs,
      loopStream fs stream
        { ops := fileReads s.pending name incoming + 2,
          pend := NMDPFiles.setItem s.pending name incoming,
          toRemove := dedupKeys
            (tabKeys (NMDPFiles.setItem s.pending name incoming).codes),
          added := [], changed := [], writes := 1 } = .ok ls ∧
      removalLoop fs ls.toRemove
        { ops := ls.ops, pend := ls.pend, writes := ls.writes,
          removed := [] } = .ok rs ∧
      r = { finalSt := { committed := rs.pend, pending := rs.pend,
                         needOptimize := true },
            outcome := .reconciled, added := ls.added, changed := ls.changed,
            removed := rs.removed, writes := rs.writes, didCommit := true } := by
  simp only [runDemo] at h
  by_cases hr : (List.range (fileReads s.pending name incoming)).any fs = true
  · rw [if_pos hr] at h
    cases h
  · rw [if_neg hr] at h
    by_cases hn : needToUpdate s.pending name incoming = true
    · rw [if_pos hn] at h
      simp only [updateRun] at h
      by_cases h0 : fs (fileReads s.pending name incoming) = true
      · rw [if_pos h0] at h
        cases h
      · rw [if_neg h0] at h
        by_cases h1 : fs (fileReads s.pending name incoming + 1) = true
        · rw [if_pos h1] at h
          cases h
        · rw [if_neg h1] at h
          cases hls : loopStream fs stream
              { ops := fileReads s.pending name incoming + 2,
                pend := NMDPFiles.setItem s.pending name incoming,
                toRemove := dedupKeys
                  (tabKeys (NMDPFiles.setItem s.pending name incoming).codes),
                added := [], changed := [], writes := 1 } with
          | error p =>
              obtain ⟨f, pendE⟩ := p
              rw [hls] at h
              simp at h
          | ok ls =>
              rw [hls] at h
              simp only at h
              cases hrs : removalLoop fs ls.toRemove
                  { ops := ls.ops, pend := ls.pend, writes := ls.writes,
                    removed := [] } with
              | error p =>
                  obtain ⟨f, pendE⟩ := p
                  rw [hrs] at h
                  simp at h
              | ok rs =>
                  rw [hrs] at h
                  simp only at h
                  by_cases h2 : fs rs.ops = true
                  · rw [if_pos h2] at h
                    cases h
                  · rw [if_neg h2] at h
                    exact ⟨ls, rs, rfl, hrs, (Except.ok.inj h).symm⟩
    · rw [if_neg hn] at h
      cases h
      simp at hc

theorem updateRun_error_committed (fs : Nat → Bool) (s : DBState) (ops0 : Nat)
    (name : String) (incoming : NMDPFile) (stream : List (String × String))
    (f : Fault) (s' : DBState)
    (h : updateRun fs s ops0 name incoming stream = .error (f, s')) :
    s'.committed = s.committed := by
  simp only [updateRun] at h
  by_cases h0 : fs ops0 = true
  · rw [if_pos h0] at h
    simp only [Except.error.injEq, Prod.mk.injEq] at h
    rw [← h.2]
  · rw [if_neg h0] at h
    by_cases h1 : fs (ops0 + 1) = true
    · rw [if_pos h1] at h
      simp only [Except.error.injEq, Prod.mk.injEq] at h
      rw [← h.2]
    · rw [if_neg h1] at h
      cases hls : loopStream fs stream
          { ops := ops0 + 2,
            pend := NMDPFiles.setItem s.pending name incoming,
            toRemove := dedupKeys
              (tabKeys (NMDPFiles.setItem s.pending name incoming).codes),
            added := [], changed := [], writes := 1 } with
      | error p =>
          obtain ⟨f2, pendE⟩ := p
          rw [hls] at h
          simp only [Except.error.injEq, Prod.mk.injEq] at h
          rw [← h.2]
      | ok ls =>
          rw [hls] at h
          simp only at h
          cases hrs : removalLoop fs ls.toRemove
              { ops := ls.ops, pend := ls.pend, writes := ls.writes,
                removed := [] } with
          | error p =>
              obtain ⟨f2, pendE⟩ := p
              rw [hrs] at h
              simp only [Except.error.injEq, Prod.mk.injEq] at h
              rw [← h.2]
          | ok rs =>
              rw [hrs] at h
              simp only at h
              by_cases h2 : fs rs.ops = true
              · rw [if_pos h2] at h
                simp only [Except.error.injEq, Prod.mk.injEq] at h
                rw [← h.2]
              · rw [if_neg h2] at h
                cases h

theorem runDemo_error_committed (fs : Nat → Bool) (s : DBState) (name : String)
    (incoming : NMDPFile) (stream : List (String × String))
    (f : Fault) (s' : DBState)
    (h : runDemo fs s name incoming stream = .error (f, s')) :
    s'.committed = s.committed := by
  simp only [runDemo] at h
  by_cases hr : (List.range (fileReads s.pending name incoming)).any fs = true
  · rw [if_pos hr] at h
    simp only [Except.error.injEq, Prod.mk.injEq] at h
    rw [← h.2]
  · rw [if_neg hr] at h
    by_cases hn : needToUpdate s.pending name incoming = true
    · rw [if_pos hn] at h
      exact updateRun_error_committed fs s _ name incoming stream f s' h
    · rw [if_neg hn] at h
      cases h

/-- `need_optimize` after a session history is set exactly when some
`commit()` call occurred: it starts `False`, only
`NMDPConnection.commit` sets it, and nothing clears it. -/
theorem needOptimize_runSession_iff (s0 : DBState) (ops : List SessionOp) :
    ((runSession s0 ops).needOptimize = true ↔
      (s0.needOptimize = true ∨ SessionOp.commitOp ∈ ops)) := by
  induction ops generalizing s0 with
  | nil => simp [runSession]
  | cons op rest ih =>
      have hstep : runSession s0 (op :: rest) =
          runSession (applySessionOp s0 op) rest := by
        simp [runSession]
      rw [hstep, ih]
      cases op with
      | commitOp => simp [applySessionOp, NMDPConnection.commit]
      | rollbackOp => simp [applySessionOp, NMDPConnection.rollback]
      | setFileOp k v => simp [applySessionOp]
      | setCodeOp k v =>
          cases hs : NMDPCodes.setItem s0.pending k v <;>
            simp [applySessionOp, hs]
      | delCodeOp k =>
          cases hs : NMDPCodes.delItem s0.pending k <;>
            simp [applySessionOp, hs]

theorem decodeSubtype_ne_keyError (p : List Nat) :
    decodeSubtype p ≠ .error .keyError := by
  unfold decodeSubtype
  split
  · simp
  · split
    · simp
    · simp

/-- C4: opening a store succeeds and yields a live handle iff its
stored application identifier equals 1346653518 and its stored version
equals 3; an identifier mismatch fails with WrongIdentifier, an
identifier match with a version mismatch fails with
UnsupportedVersion; a failing open depends only on the two header
values, not on the table content, so it fails before any mapping
operation executes. -/
theorem c4_open_db_validation (f : StoreFile) :
    ((∃ hdl, open_db f = .ok hdl) ↔
      (f.applicationId = SCHEMA_CODE ∧ f.userVersion = SCHEMA_VER)) ∧
    (f.applicationId ≠ SCHEMA_CODE → open_db f = .error .wrongIdentifier) ∧
    (f.applicationId = SCHEMA_CODE → f.userVersion ≠ SCHEMA_VER →
      open_db f = .error .unsupportedVersion) ∧
    (f.applicationId = SCHEMA_CODE → f.userVersion = SCHEMA_VER →
      open_db f = .ok { committed := f.db, pending := f.db,
                        needOptimize := false }) ∧
    (∀ (e : OpenError) (d : DB), open_db f = .error e →
      open_db { applicationId := f.applicationId,
                userVersion := f.userVersion, db := d } = .error e) := by
  by_cases h1 : f.applicationId = SCHEMA_CODE
  · by_cases h2 : f.userVersion = SCHEMA_VER
    · refine ⟨?_, ?_, ?_, ?_, ?_⟩ <;> simp [open_db, h1, h2]
    · refine ⟨?_, ?_, ?_, ?_, ?_⟩ <;> simp [open_db, h1, h2]
  · refine ⟨?_, ?_, ?_, ?_, ?_⟩ <;> simp [open_db, h1]

theorem c4_witness :
    open_db goodStore =
      .ok { committed := dbEmpty, pending := dbEmpty, needOptimize := false } ∧
    open_db badIdStore = .error .wrongIdentifier ∧
    open_db badVerStore = .error .unsupportedVersion :=
  ⟨(c4_open_db_validation goodStore).2.2.2.1 rfl rfl,
   (c4_open_db_validation badIdStore).2.1 (by decide),
   (c4_open_db_validation badVerStore).2.2.1 rfl (by decide)⟩

/-- C8: running the `setup_db` statement sequence at a location that
already holds a store makes `CREATE TABLE Files` fail with the
already-exists error before either commit is reached, and since the
pragma header writes sat in the still-open transaction, the close-time
rollback leaves the existing file exactly as it was — whatever header
it carried; at a location with no existing store the sequence runs to
completion and leaves behind a closed store with both tables empty,
identifier 1346653518 and version 3. -/
theorem c8_setup_db (f : SqliteFile) :
    (isNmdpStore f = true →
      setup_db (some f) = (.error .alreadyExists, some f)) ∧
    setup_db none =
      (.ok (), some { applicationId := SCHEMA_CODE, userVersion := SCHEMA_VER,
                      hasFiles := true, filesRows := [],
                      hasCodes := true, codesRows := [] }) := by
  constructor
  · intro hstore
    have hf : f.hasFiles = true := by
      unfold isNmdpStore at hstore
      exact (Bool.and_eq_true _ _).mp hstore |>.1
    simp only [setup_db, sqliteConnect, pragmaJournalModeDelete,
      pragmaSetApplicationId, pragmaSetUserVersion, createTableFiles,
      connCloseFile]
    simp [hf]
  · rfl

theorem c8_witness :
    setup_db (some existingStoreExample) =
      (.error .alreadyExists, some existingStoreExample) ∧
    setup_db none =
      (.ok (), some { applicationId := SCHEMA_CODE, userVersion := SCHEMA_VER,
                      hasFiles := true, filesRows := [],
                      hasCodes := true, codesRows := [] }) :=
  ⟨(c8_setup_db existingStoreExample).1 rfl,
   (c8_setup_db existingStoreExample).2⟩

/-- C6: the attribute codec round-trips exactly on 7-bit-ASCII strings:
compressing the ASCII encoding and then decompressing and decoding it
returns the original string, and a value written for a code through the
mapping reads back equal to the value written. -/
theorem c6_codec_roundtrip (s : String) (h : allAscii s = true) :
    (∃ bs, encodeSubtype s = .ok bs ∧ decodeSubtype bs = .ok s) ∧
    (∀ (db db2 : DB) (key : String),
      NMDPCodes.setItem db key ⟨s⟩ = .ok db2 →
      NMDPCodes.getItem db2 key = .ok ⟨s⟩) := by
  have henc : asciiEncode s = some (s.data.map Char.toNat) := by
    unfold asciiEncode
    rw [if_pos h]
  constructor
  · refine ⟨rleCompress (s.data.map Char.toNat), ?_, ?_⟩
    · unfold encodeSubtype
      rw [henc]
    · unfold decodeSubtype
      simp only [rleDecompress_rleCompress, asciiDecode_asciiEncode s _ henc]
  · intro db db2 key hset
    exact NMDPCodes.setItem_getItem_self _ _ _ _ hset

theorem c6_witness :
    allAscii "ab" = true ∧
    NMDPCodes.getItem dbAfterSet "A" = Except.ok ⟨"ab"⟩ :=
  ⟨rfl, (c6_codec_roundtrip "ab" rfl).2 dbEmpty dbAfterSet "A" (by rfl)⟩

/-- C10: setting a code through the mapping fails with the encoding
error — before any SQL write executes, so the store is unchanged —
exactly when the subtype contains a character outside 7-bit ASCII, and
succeeds (one upserted row) when the subtype is pure ASCII. -/
theorem c10_setitem_ascii_guard (db : DB) (key : String) (value : NMDPCode) :
    (allAscii value.subtype = false →
      NMDPCodes.setItem db key value = .error .unicodeEncode) ∧
    (allAscii value.subtype = true →
      NMDPCodes.setItem db key value =
        .ok { db with codes := tabUpsert db.codes key (payloadOf value.subtype) }) := by
  constructor
  · intro hna
    unfold NMDPCodes.setItem encodeSubtype asciiEncode
    rw [hna]
    simp
  · intro ha
    unfold NMDPCodes.setItem encodeSubtype asciiEncode
    rw [ha]
    simp
    rfl

theorem c10_witness :
    NMDPCodes.setItem dbEmpty "A" ⟨"π"⟩ = .error .unicodeEncode ∧
    NMDPCodes.setItem dbEmpty "A" ⟨"x"⟩ =
      .ok { dbEmpty with codes := tabUpsert dbEmpty.codes "A" (payloadOf "x") } :=
  ⟨(c10_setitem_ascii_guard dbEmpty "A" ⟨"π"⟩).1 rfl,
   (c10_setitem_ascii_guard dbEmpty "A" ⟨"x"⟩).2 rfl⟩

/-- C7 counterexample: the Codes mapping's membership test decodes the
stored value, so on a store whose payload for key `A` is not decodable
it raises CorruptPayload instead of returning `True`, even though the
row for `A` exists. -/
theorem c7_counterexample :
    NMDPCodes.containsKey badPayloadDB "A" = .error Fault.corruptPayload ∧
    (tabGet badPayloadDB.codes "A").isSome = true := by
  constructor
  · rfl
  · rfl

/-- C7 (amended): the inherited `__contains__` calls `__getitem__`, so
it fetches and decodes the stored value: it returns `False` when the
row is absent, `True` when the row exists and its payload decodes, and
propagates the decode fault when the payload of an existing row does
not decode. -/
theorem c7_contains_decodes (db : DB) (k : String) :
    (tabGet db.codes k = none → NMDPCodes.containsKey db k = .ok false) ∧
    (∀ p s, tabGet db.codes k = some p → decodeSubtype p = .ok s →
      NMDPCodes.containsKey db k = .ok true) ∧
    (∀ p e, tabGet db.codes k = some p → decodeSubtype p = .error e →
      NMDPCodes.containsKey db k = .error e) := by
  refine ⟨?_, ?_, ?_⟩
  · intro h0
    unfold NMDPCodes.containsKey NMDPCodes.getItem
    rw [h0]
  · intro p s hp hd
    unfold NMDPCodes.containsKey NMDPCodes.getItem
    rw [hp]
    simp only [hd]
  · intro p e hp hd
    unfold NMDPCodes.containsKey NMDPCodes.getItem
    rw [hp]
    simp only [hd]
    cases e with
    | keyError => exact absurd hd (decodeSubtype_ne_keyError p)
    | storageFault => rfl
    | corruptPayload => rfl
    | unicodeDecode => rfl
    | unicodeEncode => rfl

theorem c7_witness :
    NMDPCodes.containsKey dbEmpty "A" = .ok false ∧
    NMDPCodes.containsKey { files := [], codes := [("A", payloadOf "x")] } "A" =
      .ok true :=
  ⟨(c7_contains_decodes dbEmpty "A").1 rfl,
   (c7_contains_decodes { files := [], codes := [("A", payloadOf "x")] } "A").2.1
     (payloadOf "x") "x" rfl (by rfl)⟩

/-- C9: at session end-of-life the teardown always rolls back first and
releases the handle last, and it runs the optimize-and-commit pair in
between iff at least one `commit()` happened during the session's
lifetime (starting from a fresh connection). -/
theorem c9_teardown_trace (s0 : DBState) (ops : List SessionOp)
    (hfresh : s0.needOptimize = false) :
    ((NMDPConnection.delTrace (runSession s0 ops) =
        [.rollbackAct, .optimizeAct, .commitAct, .closeAct]) ↔
      SessionOp.commitOp ∈ ops) ∧
    (SessionOp.commitOp ∉ ops →
      NMDPConnection.delTrace (runSession s0 ops) =
        [.rollbackAct, .closeAct]) := by
  have hno := needOptimize_runSession_iff s0 ops
  rw [hfresh] at hno
  simp only [Bool.false_eq_true, false_or] at hno
  by_cases hmem : SessionOp.commitOp ∈ ops
  · have ht : (runSession s0 ops).needOptimize = true := hno.mpr hmem
    unfold NMDPConnection.delTrace
    rw [ht]
    simp [hmem]
  · have ht : (runSession s0 ops).needOptimize = false := by
      cases hcase : (runSession s0 ops).needOptimize
      · rfl
      · exact absurd (hno.mp hcase) hmem
    unfold NMDPConnection.delTrace
    rw [ht]
    simp [hmem]

theorem c9_witness :
    NMDPConnection.delTrace (runSession st0 [SessionOp.commitOp]) =
      [.rollbackAct, .optimizeAct, .commitAct, .closeAct] ∧
    NMDPConnection.delTrace (runSession st0 [SessionOp.rollbackOp]) =
      [.rollbackAct, .closeAct] :=
  ⟨(c9_teardown_trace st0 [SessionOp.commitOp] rfl).1.mpr (by simp),
   (c9_teardown_trace st0 [SessionOp.rollbackOp] rfl).2 (by simp)⟩

/-- C3: if a run faults anywhere before the single commit — a storage
read or write failure from the fault schedule, or a codec failure — the
teardown's rollback-first discipline leaves the store's observable
content exactly as it was before the run: the committed content is
untouched and the pending content is rolled back onto it. -/
theorem c3_fault_preserves_store (fs : Nat → Bool) (s : DBState)
    (name : String) (incoming : NMDPFile) (stream : List (String × String))
    (f : Fault) (s' : DBState)
    (h : runDemo fs s name incoming stream = .error (f, s')) :
    (NMDPConnection.delConn s').committed = s.committed ∧
    (NMDPConnection.delConn s').pending = s.committed := by
  have hcom : s'.committed = s.committed :=
    runDemo_error_committed fs s name incoming stream f s' h
  have hdel : (NMDPConnection.delConn s').committed = s'.committed ∧
      (NMDPConnection.delConn s').pending = s'.committed := by
    unfold NMDPConnection.delConn NMDPConnection.rollback
    dsimp only
    split
    · exact ⟨rfl, rfl⟩
    · exact ⟨rfl, rfl⟩
  exact ⟨hdel.1.trans hcom, hdel.2.trans hcom⟩

theorem c3_witness :
    (NMDPConnection.delConn st0).committed = st0.committed ∧
    (NMDPConnection.delConn st0).pending = st0.committed :=
  c3_fault_preserves_store allFault st0 "alpha.v3.txt" demoFile strm0
    Fault.storageFault st0 (by rfl)

/-- C1: after a reconciliation run that reaches its commit, the Codes
mapping's committed content equals exactly the deduplicated-by-key
content of the incoming stream with last-write-wins on duplicates:
every stream key reads back the subtype of its last occurrence, and
every key absent from the stream has been deleted (or was never
there). -/
theorem c1_reconciled_content (fs : Nat → Bool) (s : DBState) (name : String)
    (incoming : NMDPFile) (stream : List (String × String)) (r : RunResult)
    (h : runDemo fs s name incoming stream = .ok r) (hc : r.didCommit = true)
    (k : String) :
    NMDPCodes.getItem r.finalSt.committed k =
      (match lastAssoc stream k with
       | some v => .ok ⟨v⟩
       | none => .error .keyError) := by
  obtain ⟨ls, rs, hls, hrs, hr⟩ :=
    runDemo_ok_committed fs s name incoming stream r h hc
  subst hr
  dsimp only
  obtain ⟨Lf, Lu, Ll, La, L5, L6, L7⟩ := loopStream_spec fs stream _ _ hls
  obtain ⟨Rf, Ru, Rd⟩ := removalLoop_spec fs ls.toRemove _ _ hrs
  dsimp only at Lf Lu Ll La L5 L6 L7 Rf Ru Rd
  cases hla : lastAssoc stream k with
  | some v =>
      obtain ⟨hgv, hnr⟩ := Ll k v hla
      rw [NMDPCodes.getItem_congr ls.pend rs.pend k (Ru k hnr)]
      exact hgv
  | none =>
      have hkn : k ∉ streamKeys stream := (lastAssoc_eq_none_iff _ _).mp hla
      obtain ⟨lc, lt, -, -⟩ := Lu k hkn
      by_cases hin : k ∈ ls.toRemove
      · unfold NMDPCodes.getItem
        rw [Rd k hin]
      · have hnone :
            tabGet (NMDPFiles.setItem s.pending name incoming).codes k = none := by
          have h1 : k ∉ dedupKeys
              (tabKeys (NMDPFiles.setItem s.pending name incoming).codes) :=
            fun hmem2 => hin (lt.mpr hmem2)
          rw [mem_dedupKeys, mem_tabKeys_iff] at h1
          exact Option.not_isSome_iff_eq_none.mp h1
        unfold NMDPCodes.getItem
        rw [Ru k hin, lc, hnone]

theorem c1_witness :
    NMDPCodes.getItem res0.finalSt.committed "C" = Except.ok ⟨"z"⟩ ∧
    NMDPCodes.getItem res0.finalSt.committed "B" = Except.error Fault.keyError := by
  have h : runDemo noFault st0 "alpha.v3.txt" demoFile strm0 = .ok res0 := by rfl
  constructor
  · exact c1_reconciled_content noFault st0 "alpha.v3.txt" demoFile strm0 res0
      h (by rfl) "C"
  · exact c1_reconciled_content noFault st0 "alpha.v3.txt" demoFile strm0 res0
      h (by rfl) "B"

/-- C5: reconciliation is idempotent: after a run that committed, a
second fault-free run with the same FileRecord and the same stream
takes the up-to-date outcome and performs zero write statements and no
commit, leaving the connection state unchanged. -/
theorem c5_second_run_up_to_date (fs : Nat → Bool) (s : DBState) (name : String)
    (incoming : NMDPFile) (stream : List (String × String)) (r : RunResult)
    (h : runDemo fs s name incoming stream = .ok r) (hc : r.didCommit = true) :
    runDemo noFault r.finalSt name incoming stream =
      .ok { finalSt := r.finalSt, outcome := .upToDate, added := [],
            changed := [], removed := [], writes := 0, didCommit := false } := by
  obtain ⟨ls, rs, hls, hrs, hr⟩ :=
    runDemo_ok_committed fs s name incoming stream r h hc
  subst hr
  dsimp only
  obtain ⟨Lf, -, -, -, -, -, -⟩ := loopStream_spec fs stream _ _ hls
  obtain ⟨Rf, -, -⟩ := removalLoop_spec fs ls.toRemove _ _ hrs
  dsimp only at Lf Rf
  have hfile : tabGet rs.pend.files name = some incoming := by
    rw [Rf, Lf]
    exact tabGet_upsert_self _ _ _
  have hread : NMDPFiles.getItem rs.pend name = .ok incoming := by
    unfold NMDPFiles.getItem
    rw [hfile]
  have hfr : fileReads rs.pend name incoming = 3 := by
    unfold fileReads
    rw [hread]
    simp
  have hntu : needToUpdate rs.pend name incoming = false := by
    unfold needToUpdate
    rw [hread]
    simp
  simp only [runDemo]
  rw [hfr, hntu]
  simp [noFault]

theorem c5_witness :
    runDemo noFault res0.finalSt "alpha.v3.txt" demoFile strm0 =
      .ok { finalSt := res0.finalSt, outcome := .upToDate, added := [],
            changed := [], removed := [], writes := 0, didCommit := false } :=
  c5_second_run_up_to_date noFault st0 "alpha.v3.txt" demoFile strm0 res0
    (by rfl) (by rfl)

/-- C2 counterexample: against the store holding `A ↦ "x"`, the stream
`[(A,"x"), (A,"x")]` makes the run report `A` as added — the second
occurrence of `A` is no longer in the pending-removal set, so it takes
the added branch — although `A` was present in the store before the run
and occurs twice in the stream, which the claim says should never be
reported as added. -/
theorem c2_counterexample :
    resDup.added = ["A"] ∧ resDup.changed = [] ∧
    "A" ∈ tabKeys stDupA.pending.codes ∧ countOcc strmDup "A" = 2 := by
  refine ⟨rfl, rfl, ?_, rfl⟩
  decide

/-- C2 (amended): only the changed classification is decided solely by
the first occurrence of a key — a pending-removal key is recorded as
changed iff its stored record differs from its first occurrence, and
later occurrences never touch the changed set.  But every later
occurrence of a key takes the added branch: a key is reported as added
iff it occurs in the stream and either was absent from the store before
the run or occurs at least twice; in particular a key already present
in the store and occurring twice in the stream IS reported as added. -/
theorem c2_amended_classification (fs : Nat → Bool) (s : DBState)
    (name : String) (incoming : NMDPFile) (stream : List (String × String))
    (r : RunResult)
    (h : runDemo fs s name incoming stream = .ok r) (hc : r.didCommit = true) :
    (∀ k, k ∈ r.added ↔
      (k ∈ streamKeys stream ∧
        (k ∉ tabKeys s.pending.codes ∨ 2 ≤ countOcc stream k))) ∧
    (∀ k, k ∉ tabKeys s.pending.codes → tabGet r.changed k = none) ∧
    (∀ k v w, firstAssoc stream k = some v → k ∈ tabKeys s.pending.codes →
      NMDPCodes.getItem s.pending k = .ok ⟨w⟩ →
      tabGet r.changed k = (if w = v then none else some (⟨w⟩, ⟨v⟩))) := by
  obtain ⟨ls, rs, hls, hrs, hr⟩ :=
    runDemo_ok_committed fs s name incoming stream r h hc
  subst hr
  dsimp only
  obtain ⟨-, Lu, -, La, L5, L6, -⟩ := loopStream_spec fs stream _ _ hls
  dsimp only at Lu La L5 L6
  have htr : ∀ k, (k ∈ dedupKeys
      (tabKeys (NMDPFiles.setItem s.pending name incoming).codes)) ↔
      k ∈ tabKeys s.pending.codes := by
    intro k
    rw [mem_dedupKeys]
    dsimp only [NMDPFiles.setItem]
    exact Iff.rfl
  refine ⟨?_, ?_, ?_⟩
  · intro k
    by_cases hks : k ∈ streamKeys stream
    · have hA := La k hks
      rw [hA]
      simp only [List.not_mem_nil, false_or]
      constructor
      · rintro (hx | hx)
        · exact ⟨hks, Or.inl (fun hmem => hx ((htr k).mpr hmem))⟩
        · exact ⟨hks, Or.inr hx⟩
      · rintro ⟨-, (hx | hx)⟩
        · exact Or.inl (fun hmem => hx ((htr k).mp hmem))
        · exact Or.inr hx
    · obtain ⟨-, -, ha, -⟩ := Lu k hks
      rw [ha]
      simp [hks]
  · intro k hkn
    by_cases hks : k ∈ streamKeys stream
    · have hp := L6 k hks (fun hmem => hkn ((htr k).mp hmem))
      rw [hp]
      rfl
    · obtain ⟨-, -, -, hch⟩ := Lu k hks
      rw [hch]
      rfl
  · intro k v w hfirst hkin hget0
    have hkr : k ∈ dedupKeys
        (tabKeys (NMDPFiles.setItem s.pending name incoming).codes) :=
      (htr k).mpr hkin
    have hget1 : NMDPCodes.getItem
        (NMDPFiles.setItem s.pending name incoming) k = .ok ⟨w⟩ := hget0
    have hp := L5 k v w hfirst hkr hget1
    rw [hp]
    by_cases hwv : w = v
    · rw [if_pos hwv, if_pos hwv]
      rfl
    · rw [if_neg hwv, if_neg hwv]

theorem c2_amended_witness :
    ("A" ∈ resDup.added ↔
      ("A" ∈ streamKeys strmDup ∧
        ("A" ∉ tabKeys stDupA.pending.codes ∨ 2 ≤ countOcc strmDup "A"))) :=
  (c2_amended_classification noFault stDupA "alpha.v3.txt" demoFile strmDup
    resDup (by rfl) (by rfl)).1 "A"
